import Mathlib

set_option maxRecDepth 4096

/-!
Shallow embedding of `src/validation.rs` from the laserfiche-rs repository.

Strings are modelled as `List Char`.  Rust `str::len()` counts UTF-8 bytes,
modelled by `utf8Len` (sum of the UTF-8 sizes of the characters).  The
`error_chain` `Result<T>` is modelled by `Except ValErr T`, with `ValErr`
mirroring the `ErrorKind` constructors and their payloads.  The regular
expressions are embedded as executable Boolean matchers over `List Char`;
ASCII case folding stands in for the regex crate's `(?i)` (all pattern
characters are ASCII).  The platform is modelled as non-Windows, so every
`cfg!(windows)` branch of the source is dead code.
-/

namespace Validation

/-- The single-quote character `'` (0x27). -/
def quoteChar : Char := Char.ofNat 39

/-- The backslash character `\` (0x5c). -/
def backslashChar : Char := Char.ofNat 92

/-- The NUL control character (0x00). -/
def nulChar : Char := Char.ofNat 0

/-- The SUB control character (0x1a). -/
def subChar : Char := Char.ofNat 26

/-- The line-feed control character (0x0a). -/
def lineFeedChar : Char := Char.ofNat 10

/-- The carriage-return control character (0x0d). -/
def carriageReturnChar : Char := Char.ofNat 13

/-- ASCII lower-casing: the case folding used by `(?i)` on the all-ASCII
patterns of `validation.rs`. -/
def toLowerChar (c : Char) : Char :=
  if 65 ≤ c.toNat ∧ c.toNat ≤ 90 then Char.ofNat (c.toNat + 32) else c

/-- The regex class `[a-zA-Z]`. -/
def isAsciiAlpha (c : Char) : Bool :=
  decide ((65 ≤ c.toNat ∧ c.toNat ≤ 90) ∨ (97 ≤ c.toNat ∧ c.toNat ≤ 122))

/-- The regex class `[0-9]`. -/
def isAsciiDigit (c : Char) : Bool :=
  decide (48 ≤ c.toNat ∧ c.toNat ≤ 57)

/-- The regex class `[a-zA-Z0-9]`. -/
def isAlnumChar (c : Char) : Bool :=
  isAsciiAlpha c || isAsciiDigit c

/-- The regex class `\w` (restricted to ASCII): `[a-zA-Z0-9_]`. -/
def isWordChar (c : Char) : Bool :=
  isAlnumChar c || c == '_'

/-- The regex class `\s` (restricted to ASCII): space, tab, LF, VT, FF, CR. -/
def isSpaceChar (c : Char) : Bool :=
  c == ' ' || c == Char.ofNat 9 || c == lineFeedChar ||
  c == Char.ofNat 11 || c == Char.ofNat 12 || c == carriageReturnChar

/-- The number of UTF-8 bytes of one character (Rust `char::len_utf8`). -/
def charUtf8Size (c : Char) : Nat :=
  if c.toNat < 128 then 1
  else if c.toNat < 2048 then 2
  else if c.toNat < 65536 then 3
  else 4

/-- Rust `str::len()`: the number of UTF-8 bytes of the string. -/
def utf8Len (l : List Char) : Nat :=
  (l.map charUtf8Size).sum

/-- `pat` occurs somewhere in `l` as a contiguous run (unanchored regex
matching of a literal alternative). -/
def containsSeq (pat : List Char) : List Char → Bool
  | [] => pat.isEmpty
  | c :: t => pat.isPrefixOf (c :: t) || containsSeq pat t

/-- Some suffix of `l` satisfies `p` (used for unanchored matching of the
one non-literal regex alternative). -/
def anySuffix (p : List Char → Bool) : List Char → Bool
  | [] => p []
  | c :: t => p (c :: t) || anySuffix p t

/-- The alternatives of `SQL_INJECTION_PATTERN`
(`(?i)(SELECT|INSERT|UPDATE|DELETE|DROP|CREATE|ALTER|EXEC|EXECUTE|UNION|--|;|'|\\x00|\\n|\\r|\\x1a)`),
lower-cased.  The pattern is a Rust *raw* string, so `\\x00` reaches the
regex engine as backslash-backslash-x-0-0, which matches an escaped literal
backslash followed by the text `x00` — the four-character text `\x00`, not
the NUL control character; likewise `\\n`, `\\r` and `\\x1a` match the
two-character texts `\n`, `\r` and the four-character text `\x1a`. -/
def sqlInjectionAlternatives : List (List Char) :=
  ["select".toList, "insert".toList, "update".toList, "delete".toList,
   "drop".toList, "create".toList, "alter".toList, "exec".toList,
   "execute".toList, "union".toList, "--".toList, ";".toList, [quoteChar],
   "\\x00".toList, "\\n".toList, "\\r".toList, "\\x1a".toList]

/-- `SQL_INJECTION_PATTERN.is_match`: some alternative occurs in the
lower-cased input. -/
def SQL_INJECTION_PATTERN_isMatch (l : List Char) : Bool :=
  sqlInjectionAlternatives.any (fun p => containsSeq p (l.map toLowerChar))

/-- After `on` and the first `\w`: consume further word characters, then
whitespace, then require `=`.  Maximal munch is complete here because the
classes `\w`, `\s` and the literal `=` are pairwise disjoint, so the regex
`on\w+\s*=` matches at a position iff this scan succeeds. -/
def spacesThenEq : Char → List Char → Bool
  | c, [] => if isSpaceChar c then false else c == '='
  | c, d :: t => if isSpaceChar c then spacesThenEq d t else c == '='

/-- Word-run phase of `on\w+\s*=` after at least one word character. -/
def afterOnWord : List Char → Bool
  | [] => false
  | c :: t => if isWordChar c then afterOnWord t else spacesThenEq c t

/-- The regex alternative `on\w+\s*=` anchored at the head of the
(lower-cased) list. -/
def onAttrAt : List Char → Bool
  | c1 :: c2 :: c3 :: t => c1 == 'o' && c2 == 'n' && isWordChar c3 && afterOnWord t
  | _ => false

/-- The literal alternatives of `SCRIPT_INJECTION_PATTERN`
(`(?i)(<script|javascript:|on\w+\s*=|eval\(|alert\(|document\.|window\.)`),
lower-cased. -/
def scriptInjectionAlternatives : List (List Char) :=
  ["<script".toList, "javascript:".toList, "eval(".toList, "alert(".toList,
   "document.".toList, "window.".toList]

/-- `SCRIPT_INJECTION_PATTERN.is_match`. -/
def SCRIPT_INJECTION_PATTERN_isMatch (l : List Char) : Bool :=
  scriptInjectionAlternatives.any (fun p => containsSeq p (l.map toLowerChar)) ||
  anySuffix onAttrAt (l.map toLowerChar)

/-- A character of the repository-name tail class `[a-zA-Z0-9\-_]`. -/
def isRepoTailChar (c : Char) : Bool :=
  isAlnumChar c || c == '-' || c == '_'

/-- `VALID_REPOSITORY_NAME.is_match`: the anchored regex
`^[a-zA-Z0-9][a-zA-Z0-9\-_]{0,63}$`. -/
def VALID_REPOSITORY_NAME_isMatch : List Char → Bool
  | [] => false
  | c :: t => isAlnumChar c && decide (t.length ≤ 63) && t.all isRepoTailChar

/-- A character of the field-name tail class `[a-zA-Z0-9_\-\s]`. -/
def isFieldTailChar (c : Char) : Bool :=
  isAlnumChar c || c == '_' || c == '-' || isSpaceChar c

/-- `VALID_FIELD_NAME.is_match`: the anchored regex
`^[a-zA-Z][a-zA-Z0-9_\-\s]{0,127}$`. -/
def VALID_FIELD_NAME_isMatch : List Char → Bool
  | [] => false
  | c :: t => isAsciiAlpha c && decide (t.length ≤ 127) && t.all isFieldTailChar

/-- The `ErrorKind` constructors of `validation.rs`, with their payloads. -/
inductive ValErr where
  | invalidEntryId : Int → ValErr
  | invalidFilePath : List Char → ValErr
  | pathTraversalAttempt : List Char → ValErr
  | invalidRepositoryName : List Char → ValErr
  | invalidUrl : List Char → ValErr
  | insecureUrl : List Char → ValErr
  | invalidFieldName : List Char → ValErr
  | invalidFieldValue : List Char → ValErr
  | sqlInjectionAttempt : List Char → ValErr
  | scriptInjectionAttempt : List Char → ValErr
  | fileSizeTooLarge : Nat → Nat → ValErr
  | invalidFileName : List Char → ValErr
deriving DecidableEq

/-- Equality of `Result` values is decidable, so the concrete evaluations
below can be settled by `decide`. -/
instance {ε α : Type} [DecidableEq ε] [DecidableEq α] :
    DecidableEq (Except ε α) := fun a b =>
  match a, b with
  | .error e1, .error e2 =>
    if h : e1 = e2 then .isTrue (by rw [h]) else .isFalse (by simp [h])
  | .ok v1, .ok v2 =>
    if h : v1 = v2 then .isTrue (by rw [h]) else .isFalse (by simp [h])
  | .error _, .ok _ => .isFalse (by simp)
  | .ok _, .error _ => .isFalse (by simp)

/-- `MAX_FIELD_VALUE_LENGTH`: 10 KiB. -/
def MAX_FIELD_VALUE_LENGTH : Nat := 10 * 1024

/-- `i64::MAX`. -/
def i64MAX : Int := 9223372036854775807

/-- `validate_entry_id`. -/
def validate_entry_id (id : Int) : Except ValErr Int :=
  if id ≤ 0 then .error (.invalidEntryId id)
  else if id > i64MAX / 2 then .error (.invalidEntryId id)
  else .ok id

/-- `validate_repository_name`. -/
def validate_repository_name (name : List Char) : Except ValErr (List Char) :=
  if name.isEmpty then .error (.invalidRepositoryName name)
  else if utf8Len name > 64 then .error (.invalidRepositoryName name)
  else if SQL_INJECTION_PATTERN_isMatch name then .error (.sqlInjectionAttempt name)
  else if !(VALID_REPOSITORY_NAME_isMatch name) then .error (.invalidRepositoryName name)
  else .ok name

/-- `validate_field_name`. -/
def validate_field_name (name : List Char) : Except ValErr (List Char) :=
  if name.isEmpty then .error (.invalidFieldName name)
  else if utf8Len name > 128 then .error (.invalidFieldName name)
  else if SQL_INJECTION_PATTERN_isMatch name then .error (.sqlInjectionAttempt name)
  else if SCRIPT_INJECTION_PATTERN_isMatch name then .error (.scriptInjectionAttempt name)
  else if !(VALID_FIELD_NAME_isMatch name) then .error (.invalidFieldName name)
  else .ok name

/-- Rust `str::replace` with a single-character pattern: every occurrence of
`c` is replaced by `rep`. -/
def replaceChar (c : Char) (rep : List Char) : List Char → List Char
  | [] => []
  | x :: t => (if x == c then rep else [x]) ++ replaceChar c rep t

/-- The sanitization chain of `validate_field_value`: double single quotes,
double backslashes, remove NUL bytes, remove SUB characters — in that
order. -/
def sanitizeFieldValue (value : List Char) : List Char :=
  replaceChar subChar []
    (replaceChar nulChar []
      (replaceChar backslashChar [backslashChar, backslashChar]
        (replaceChar quoteChar [quoteChar, quoteChar] value)))

/-- The message carried by the too-long `InvalidFieldValue` error
(`format!` with `MAX_FIELD_VALUE_LENGTH` = 10240). -/
def fieldValueTooLongMsg : List Char :=
  "Value exceeds maximum length of 10240 characters".toList

/-- `validate_field_value`. -/
def validate_field_value (value : List Char) : Except ValErr (List Char) :=
  if utf8Len value > MAX_FIELD_VALUE_LENGTH then
    .error (.invalidFieldValue fieldValueTooLongMsg)
  else if SCRIPT_INJECTION_PATTERN_isMatch value then
    .error (.scriptInjectionAttempt value)
  else .ok (sanitizeFieldValue value)

/-- A character of the domain-regex tail class `[a-zA-Z0-9\-\.]`. -/
def isDomainChar (c : Char) : Bool :=
  isAlnumChar c || c == '-' || c == '.'

/-- The anchored domain regex of `validate_server_address`:
`^[a-zA-Z0-9][a-zA-Z0-9\-\.]{0,251}[a-zA-Z0-9]$` — a first alphanumeric
character, a middle of at most 251 characters from the tail class, and a
last alphanumeric character (so the whole has 2 to 253 characters). -/
def domainShape (l : List Char) : Bool :=
  decide (2 ≤ l.length) && decide (l.length ≤ 253) &&
  (match l.head? with | some c => isAlnumChar c | none => false) &&
  (match l.getLast? with | some c => isAlnumChar c | none => false) &&
  ((l.drop 1).dropLast.all isDomainChar)

/-- Rust `str::split('.')` (accumulator-based worker). -/
def splitOnDotAux : List Char → List Char → List (List Char)
  | [], acc => [acc.reverse]
  | c :: t, acc =>
    if c == '.' then acc.reverse :: splitOnDotAux t []
    else splitOnDotAux t (c :: acc)

/-- Rust `address.split('.')` as a list of labels. -/
def splitOnDot (l : List Char) : List (List Char) :=
  splitOnDotAux l []

/-- Rejoin dot-separated labels with `.` (the inverse of `splitOnDot`,
used to reason about the first and last characters of an address). -/
def joinDots : List (List Char) → List Char
  | [] => []
  | [x] => x
  | x :: y :: t => x ++ '.' :: joinDots (y :: t)

/-- The per-label loop body of `validate_server_address`: the label is
nonempty, at most 63 bytes, and neither starts nor ends with `-`. -/
def labelOk (lab : List Char) : Bool :=
  !lab.isEmpty && decide (utf8Len lab ≤ 63) &&
  !(lab.head? == some '-') && !(lab.getLast? == some '-')

/-- `validate_server_address`.  The per-label loop returns the same
`InvalidUrl(address)` error for every failing label, so the first-failure
loop is equivalently an `all`. -/
def validate_server_address (address : List Char) : Except ValErr (List Char) :=
  if address.isEmpty then .error (.invalidUrl address)
  else if utf8Len address > 253 then .error (.invalidUrl address)
  else if SQL_INJECTION_PATTERN_isMatch address then .error (.sqlInjectionAttempt address)
  else if !(domainShape address) then .error (.invalidUrl address)
  else if !((splitOnDot address).all labelOk) then .error (.invalidUrl address)
  else .ok address

/-- A parsed URL, keeping the two components `validate_api_url` inspects. -/
structure UrlParts where
  scheme : List Char
  host : Option (List Char)
deriving DecidableEq

/-- The characters allowed after the first character of a URL scheme. -/
def isSchemeChar (c : Char) : Bool :=
  isAlnumChar c || c == '+' || c == '-' || c == '.'

/-- Split a list at its first `:`, returning the parts before and after. -/
def splitAtColon : List Char → Option (List Char × List Char)
  | [] => none
  | c :: t =>
    if c == ':' then some ([], t)
    else match splitAtColon t with
         | some (a, b) => some (c :: a, b)
         | none => none

/-- A character ending the authority component of a URL. -/
def hostEndChar (c : Char) : Bool :=
  c == '/' || c == '?' || c == '#'

/-- Model of the external `url` crate's `Url::parse`, reduced to the two
observations `validate_api_url` makes: the (lower-cased) scheme and the
host.  An input with no `:`, an invalid scheme, or an authority marker
`//` followed by an empty authority fails to parse; after a valid
`scheme:` without `//` the URL parses with no host. -/
def urlParse (l : List Char) : Option UrlParts :=
  match splitAtColon l with
  | none => none
  | some (schemeRaw, rest) =>
    match schemeRaw.map toLowerChar with
    | [] => none
    | c :: t =>
      if isAsciiAlpha c && t.all isSchemeChar then
        match rest with
        | '/' :: '/' :: rest2 =>
          let auth := rest2.takeWhile (fun d => !(hostEndChar d))
          if auth.isEmpty then none else some ⟨c :: t, some auth⟩
        | _ => some ⟨c :: t, none⟩
      else none

/-- `validate_api_url`. -/
def validate_api_url (url : List Char) : Except ValErr (List Char) :=
  if url.isEmpty then .error (.invalidUrl url)
  else
    match urlParse url with
    | none => .error (.invalidUrl url)
    | some p =>
      if p.scheme ≠ "https".toList then .error (.insecureUrl url)
      else if p.host.isNone then .error (.invalidUrl url)
      else if SQL_INJECTION_PATTERN_isMatch url then .error (.sqlInjectionAttempt url)
      else .ok url

/-- The filesystem observations `validate_file_path` makes after its pure
checks: `PathBuf::canonicalize` (`none` models an `Err`), whether the path
has a parent component, and whether that parent exists. -/
structure FileSystem where
  canonicalize : List Char → Option (List Char)
  hasParent : List Char → Bool
  parentExists : List Char → Bool

/-- `validate_file_path`, parameterized by the filesystem state (the
`cfg!(windows)` branch is dead on the modelled non-Windows platform). -/
def validate_file_path (fs : FileSystem) (path : List Char) : Except ValErr (List Char) :=
  if path.isEmpty then .error (.invalidFilePath path)
  else if path.contains nulChar then .error (.invalidFilePath path)
  else if containsSeq "..".toList path || containsSeq "~".toList path then
    .error (.pathTraversalAttempt path)
  else
    match fs.canonicalize path with
    | some canonical =>
      if containsSeq "..".toList canonical then .error (.pathTraversalAttempt path)
      else .ok canonical
    | none =>
      if fs.hasParent path then
        if fs.parentExists path then .ok path
        else .error (.invalidFilePath path)
      else .error (.invalidFilePath path)

/-- A filesystem on which no path canonicalizes and no parent exists
(every path is a dangling name). -/
def trivFS : FileSystem :=
  ⟨fun _ => none, fun _ => false, fun _ => false⟩

/-- `serde_json::Value`.  Objects are association lists in iteration order;
the numeric payload is irrelevant to `validate_metadata_json` and is kept
abstract as an `Int`. -/
inductive Json where
  | null : Json
  | bool : Bool → Json
  | num : Int → Json
  | str : List Char → Json
  | arr : List Json → Json
  | obj : List (List Char × Json) → Json

/-- The array-element branch of `validate_metadata_json`: string elements
go through `validate_field_value`, everything else is cloned verbatim. -/
def sanitizeItem : Json → Except ValErr Json
  | .str s => (validate_field_value s).map .str
  | j => .ok j

/-- The array loop of `validate_metadata_json`, in element order; the `?`
operator's early return is the `error` case of each `match`. -/
def sanitizeItems : List Json → Except ValErr (List Json)
  | [] => .ok []
  | j :: t =>
    match sanitizeItem j with
    | .error e => .error e
    | .ok j2 =>
      match sanitizeItems t with
      | .error e => .error e
      | .ok t2 => .ok (j2 :: t2)

/-- The per-value `match` of `validate_metadata_json`. -/
def validateValue : Json → Except ValErr Json
  | .str s => (validate_field_value s).map .str
  | .arr xs => (sanitizeItems xs).map .arr
  | j => .ok j

/-- The key-value loop of `validate_metadata_json`, in iteration order; the
`?` operator's early return is the `error` case of each `match`. -/
def validateEntries : List (List Char × Json) → Except ValErr (List (List Char × Json))
  | [] => .ok []
  | (k, v) :: t =>
    match validate_field_name k with
    | .error e => .error e
    | .ok k2 =>
      match validateValue v with
      | .error e => .error e
      | .ok v2 =>
        match validateEntries t with
        | .error e => .error e
        | .ok t2 => .ok ((k2, v2) :: t2)

/-- `validate_metadata_json`. -/
def validate_metadata_json : Json → Except ValErr Json
  | .obj m => (validateEntries m).map .obj
  | j => .ok j

/-- Whether a `Json` value is an object. -/
def Json.isObj : Json → Bool
  | .obj _ => true
  | _ => false

/-- The pure shape of a successfully processed array element: string
elements are sanitized, everything else is untouched. -/
def sanitizedItem : Json → Json
  | .str s => .str (sanitizeFieldValue s)
  | j => j

/-- The pure shape of a successfully processed object value: string leaves
are sanitized, array elements go through `sanitizedItem` in order, and
every other shape is untouched. -/
def sanitizedValue : Json → Json
  | .str s => .str (sanitizeFieldValue s)
  | .arr xs => .arr (xs.map sanitizedItem)
  | j => j

/-! ## Helper lemmas -/

theorem replaceChar_of_not_mem {c : Char} {rep l : List Char} (h : c ∉ l) :
    replaceChar c rep l = l := by
  induction l with
  | nil => rfl
  | cons x t ih =>
    have hx : ¬ (x == c) = true := by
      simp only [beq_iff_eq]
      rintro rfl; exact h (List.mem_cons_self x t)
    simp only [replaceChar, if_neg hx]
    rw [ih (fun hm => h (List.mem_cons_of_mem x hm))]
    rfl

theorem not_mem_replaceChar {x c : Char} {rep l : List Char}
    (hl : x ∉ l) (hr : x ∉ rep) : x ∉ replaceChar c rep l := by
  induction l with
  | nil => simp [replaceChar]
  | cons y t ih =>
    simp only [replaceChar, List.mem_append]
    rintro (hmem | hmem)
    · by_cases hy : (y == c) = true
      · rw [if_pos hy] at hmem; exact hr hmem
      · rw [if_neg hy] at hmem
        simp only [List.mem_singleton] at hmem
        exact hl (hmem ▸ List.mem_cons_self y t)
    · exact ih (fun hm => hl (List.mem_cons_of_mem y hm)) hmem

theorem not_mem_replaceChar_self {c : Char} (l : List Char) :
    c ∉ replaceChar c [] l := by
  induction l with
  | nil => simp [replaceChar]
  | cons y t ih =>
    simp only [replaceChar, List.mem_append]
    rintro (hmem | hmem)
    · by_cases hy : (y == c) = true
      · rw [if_pos hy] at hmem; simp at hmem
      · rw [if_neg hy] at hmem
        simp only [List.mem_singleton] at hmem
        exact absurd (beq_iff_eq.mpr hmem.symm) hy
    · exact ih hmem

theorem containsSeq_head_notin {c : Char} {p l : List Char} (h : c ∉ l) :
    containsSeq (c :: p) l = false := by
  induction l with
  | nil => rfl
  | cons x t ih =>
    have hcx : ¬ (c == x) = true := by
      simp only [beq_iff_eq]
      rintro rfl; exact h (List.mem_cons_self c t)
    simp only [containsSeq, List.isPrefixOf, hcx, Bool.false_and,
      Bool.false_or]
    exact ih (fun hm => h (List.mem_cons_of_mem x hm))

theorem utf8Len_append (a b : List Char) :
    utf8Len (a ++ b) = utf8Len a + utf8Len b := by
  simp [utf8Len]

theorem utf8Len_replicate (n : Nat) (c : Char) :
    utf8Len (List.replicate n c) = n * charUtf8Size c := by
  induction n with
  | zero => simp [utf8Len]
  | succ m ih =>
    simp only [List.replicate_succ, utf8Len, List.map_cons, List.sum_cons]
    simp only [utf8Len] at ih
    rw [ih]; ring

theorem contains_eq_false_of_not_mem {x : Char} {l : List Char} (h : x ∉ l) :
    l.contains x = false := by
  induction l with
  | nil => rfl
  | cons y t ih =>
    have hxy : ¬ (x == y) = true := by
      simp only [beq_iff_eq]
      rintro rfl; exact h (List.mem_cons_self x t)
    simp only [List.contains_cons, hxy, Bool.false_or]
    exact ih (fun hm => h (List.mem_cons_of_mem y hm))

/-! ## C5: validate_entry_id bounds -/

/-- C5: for every integer `id ≤ 0` or `id > i64::MAX/2`, `validate_entry_id`
fails with `InvalidEntryId`; for every `1 ≤ id ≤ i64::MAX/2` it returns `id`
unchanged. -/
theorem validate_entry_id_spec (id : Int) :
    ((id ≤ 0 ∨ id > i64MAX / 2) →
      validate_entry_id id = .error (.invalidEntryId id)) ∧
    (1 ≤ id ∧ id ≤ i64MAX / 2 → validate_entry_id id = .ok id) := by
  have hhalf : i64MAX / 2 = 4611686018427387903 := by decide
  constructor
  · rintro (h | h)
    · simp [validate_entry_id, h]
    · by_cases h0 : id ≤ 0
      · simp [validate_entry_id, h0]
      · simp only [validate_entry_id, if_neg h0, if_pos h]
  · rintro ⟨h1, h2⟩
    rw [hhalf] at h2
    have h0 : ¬ id ≤ 0 := by omega
    have h3 : ¬ id > i64MAX / 2 := by rw [hhalf]; omega
    simp [validate_entry_id, h0, h3]

/-- C5 witness: the bounds at `-5` and `7`. -/
theorem validate_entry_id_spec_witness :
    validate_entry_id (-5) = .error (.invalidEntryId (-5)) ∧
    validate_entry_id 7 = .ok 7 :=
  ⟨(validate_entry_id_spec (-5)).1 (Or.inl (by decide)),
   (validate_entry_id_spec 7).2 ⟨by decide, by decide⟩⟩

theorem isEmpty_false_of_ne {l : List Char} (h : l ≠ []) :
    l.isEmpty = false := by
  cases l with
  | nil => exact absurd rfl h
  | cons x t => rfl

theorem toLowerChar_of_lt32 {c : Char} (h : c.toNat < 32) :
    toLowerChar c = c := by
  unfold toLowerChar
  rw [if_neg (by omega)]

theorem map_toLowerChar_of_controls {s : List Char}
    (h : ∀ c ∈ s, c.toNat < 32) : s.map toLowerChar = s := by
  induction s with
  | nil => rfl
  | cons x t ih =>
    have hx := h x (List.mem_cons_self x t)
    rw [List.map_cons, toLowerChar_of_lt32 hx,
      ih (fun c hc => h c (List.mem_cons_of_mem x hc))]

/-! ## C1: what the SQL-injection matcher really matches -/

/-- C1 counterexample: a repository name containing a literal newline is
*not* classified as SQL injection; it fails the shape check with
`InvalidRepositoryName`, refuting the claim that every input containing one
of the NUL/LF/CR/SUB control characters fails with `SqlInjectionAttempt`. -/
theorem repository_name_newline_not_sql_counterexample :
    validate_repository_name "a\nb".toList =
      .error (.invalidRepositoryName "a\nb".toList) ∧
    ValErr.invalidRepositoryName "a\nb".toList ≠
      ValErr.sqlInjectionAttempt "a\nb".toList := by decide

/-- C1 amended: besides the keywords and `--`, `;`, `'`, the matcher matches
the literal escape-sequence *texts* `\x00`, `\n`, `\r`, `\x1a` (a backslash
followed by `x00`, `n`, `r`, `x1a`) — the pattern is a Rust raw string, so
`\\x00` denotes an escaped backslash and the text `x00`, not the NUL
character.  An input consisting of the four control characters themselves is
not matched, and as a repository name fails the shape check with
`InvalidRepositoryName`, not `SqlInjectionAttempt`. -/
theorem sql_pattern_matches_escape_texts_not_controls (s : List Char)
    (hctrl : ∀ c ∈ s, c = nulChar ∨ c = lineFeedChar ∨
      c = carriageReturnChar ∨ c = subChar)
    (hne : s ≠ []) (hlen : utf8Len s ≤ 64) :
    SQL_INJECTION_PATTERN_isMatch s = false ∧
    validate_repository_name s = .error (.invalidRepositoryName s) ∧
    SQL_INJECTION_PATTERN_isMatch "\\x00".toList = true ∧
    SQL_INJECTION_PATTERN_isMatch "\\n".toList = true ∧
    SQL_INJECTION_PATTERN_isMatch "\\r".toList = true ∧
    SQL_INJECTION_PATTERN_isMatch "\\x1a".toList = true := by
  have hlt : ∀ c ∈ s, c.toNat < 32 := by
    intro c hc
    rcases hctrl c hc with rfl | rfl | rfl | rfl <;> decide
  have hnotin : ∀ c : Char, 32 ≤ c.toNat → c ∉ s := by
    intro c h32 hmem
    exact absurd (hlt c hmem) (by omega)
  have hfalse : SQL_INJECTION_PATTERN_isMatch s = false := by
    simp only [SQL_INJECTION_PATTERN_isMatch, map_toLowerChar_of_controls hlt,
      List.any_eq_false]
    intro p hp
    fin_cases hp <;>
      exact ne_true_of_eq_false (containsSeq_head_notin (hnotin _ (by decide)))
  have hshape : VALID_REPOSITORY_NAME_isMatch s = false := by
    cases s with
    | nil => exact absurd rfl hne
    | cons c t =>
      have hc := hlt c (List.mem_cons_self c t)
      have halnum : isAlnumChar c = false := by
        simp only [isAlnumChar, isAsciiAlpha, isAsciiDigit,
          Bool.or_eq_false_iff, decide_eq_false_iff_not]
        constructor <;> omega
      simp [VALID_REPOSITORY_NAME_isMatch, halnum]
  refine ⟨hfalse, ?_, by decide, by decide, by decide, by decide⟩
  simp [validate_repository_name, isEmpty_false_of_ne hne, hfalse, hshape,
    show ¬ utf8Len s > 64 by omega]

/-- C1 amended witness: a one-character newline string. -/
theorem sql_pattern_matches_escape_texts_not_controls_witness :
    SQL_INJECTION_PATTERN_isMatch [lineFeedChar] = false ∧
    validate_repository_name [lineFeedChar] =
      .error (.invalidRepositoryName [lineFeedChar]) ∧
    SQL_INJECTION_PATTERN_isMatch "\\x00".toList = true ∧
    SQL_INJECTION_PATTERN_isMatch "\\n".toList = true ∧
    SQL_INJECTION_PATTERN_isMatch "\\r".toList = true ∧
    SQL_INJECTION_PATTERN_isMatch "\\x1a".toList = true :=
  sql_pattern_matches_escape_texts_not_controls [lineFeedChar]
    (by decide) (by decide) (by decide)

/-! ## C3: the order of the checks -/

/-- C3 counterexample: `" select"` fails both the repository-name shape and
the injection pattern, and the returned error is `SqlInjectionAttempt`, not
the shape failure `InvalidRepositoryName` the claim predicts — the
injection-pattern check runs *before* the format check. -/
theorem repository_name_order_counterexample :
    validate_repository_name " select".toList =
      .error (.sqlInjectionAttempt " select".toList) ∧
    ValErr.sqlInjectionAttempt " select".toList ≠
      ValErr.invalidRepositoryName " select".toList := by decide

/-- C3 amended: each validator fails fast, returning the first violated rule
in the code's order: empty-check, then length-check, then
injection-pattern-check, then format-check.  In particular an input that
fails both the shape and the injection pattern (such as `" select"`) is
reported as `SqlInjectionAttempt`. -/
theorem validators_check_injection_before_shape (s t u : List Char)
    (hs1 : s ≠ []) (hs2 : utf8Len s ≤ 64)
    (hs3 : SQL_INJECTION_PATTERN_isMatch s = true)
    (ht1 : t ≠ []) (ht2 : utf8Len t ≤ 64)
    (ht3 : SQL_INJECTION_PATTERN_isMatch t = false)
    (ht4 : VALID_REPOSITORY_NAME_isMatch t = false)
    (hu1 : u ≠ []) (hu2 : utf8Len u ≤ 128)
    (hu3 : SQL_INJECTION_PATTERN_isMatch u = true) :
    validate_repository_name [] = .error (.invalidRepositoryName []) ∧
    validate_repository_name s = .error (.sqlInjectionAttempt s) ∧
    validate_repository_name t = .error (.invalidRepositoryName t) ∧
    validate_field_name u = .error (.sqlInjectionAttempt u) ∧
    validate_repository_name " select".toList =
      .error (.sqlInjectionAttempt " select".toList) := by
  refine ⟨by decide, ?_, ?_, ?_, by decide⟩
  · simp [validate_repository_name, isEmpty_false_of_ne hs1, hs3,
      show ¬ utf8Len s > 64 by omega]
  · simp [validate_repository_name, isEmpty_false_of_ne ht1, ht3, ht4,
      show ¬ utf8Len t > 64 by omega]
  · simp [validate_field_name, isEmpty_false_of_ne hu1, hu3,
      show ¬ utf8Len u > 128 by omega]

/-- C3 amended witness: `" select"`, `"a b"` and `" select"` again. -/
theorem validators_check_injection_before_shape_witness :
    validate_repository_name [] = .error (.invalidRepositoryName []) ∧
    validate_repository_name " select".toList =
      .error (.sqlInjectionAttempt " select".toList) ∧
    validate_repository_name "a b".toList =
      .error (.invalidRepositoryName "a b".toList) ∧
    validate_field_name " select".toList =
      .error (.sqlInjectionAttempt " select".toList) ∧
    validate_repository_name " select".toList =
      .error (.sqlInjectionAttempt " select".toList) :=
  validators_check_injection_before_shape
    " select".toList "a b".toList " select".toList
    (by decide) (by decide) (by decide) (by decide) (by decide)
    (by decide) (by decide) (by decide) (by decide) (by decide)

/-- Success of `validate_field_value` determines both checks and the
result: the value fits in 10 KiB, is script-free, and comes out of the
sanitization chain. -/
theorem validate_field_value_ok {s r : List Char}
    (h : validate_field_value s = .ok r) :
    utf8Len s ≤ MAX_FIELD_VALUE_LENGTH ∧
    SCRIPT_INJECTION_PATTERN_isMatch s = false ∧
    r = sanitizeFieldValue s := by
  by_cases h1 : utf8Len s > MAX_FIELD_VALUE_LENGTH
  · rw [validate_field_value, if_pos h1] at h
    exact Except.noConfusion h
  by_cases h2 : SCRIPT_INJECTION_PATTERN_isMatch s = true
  · rw [validate_field_value, if_neg h1, if_pos h2] at h
    exact Except.noConfusion h
  · rw [validate_field_value, if_neg h1, if_neg h2] at h
    exact ⟨by omega, by simpa using h2, (Except.ok.inj h).symm⟩

/-- On a string free of quotes, backslashes, NUL and SUB, the sanitization
chain is the identity. -/
theorem sanitizeFieldValue_eq_self {s : List Char}
    (hq : quoteChar ∉ s) (hb : backslashChar ∉ s)
    (h0 : nulChar ∉ s) (hsub : subChar ∉ s) :
    sanitizeFieldValue s = s := by
  unfold sanitizeFieldValue
  rw [replaceChar_of_not_mem hq, replaceChar_of_not_mem hb,
    replaceChar_of_not_mem h0, replaceChar_of_not_mem hsub]

theorem containsSeq_of_isPrefixOf {p l : List Char}
    (h : p.isPrefixOf l = true) : containsSeq p l = true := by
  cases l with
  | nil =>
    cases p with
    | nil => rfl
    | cons c t => simp [List.isPrefixOf] at h
  | cons x t => simp [containsSeq, h]

/-! ## C2: re-validating a sanitized value -/

/-- C2 counterexample: for the one-quote input the sanitizer returns two
quotes, and feeding that back doubles them again to four — strictly longer
than either the original input or the string fed back, refuting the claimed
monotone idempotence. -/
theorem field_value_requote_counterexample :
    validate_field_value [quoteChar] = .ok [quoteChar, quoteChar] ∧
    validate_field_value [quoteChar, quoteChar] =
      .ok [quoteChar, quoteChar, quoteChar, quoteChar] ∧
    ¬ ([quoteChar, quoteChar, quoteChar, quoteChar].length ≤
        [quoteChar].length) ∧
    ¬ ([quoteChar, quoteChar, quoteChar, quoteChar].length ≤
        [quoteChar, quoteChar].length) := by decide

/-- C2 amended: re-validation is harmless only on values the sanitizer does
not touch: if the input contains no single quote, no backslash, no NUL and
no SUB, a successful `validate_field_value` returns the input itself, and
feeding the result back succeeds with the same (hence no longer) value.  In
general each pass doubles the quotes again, as the counterexample shows. -/
theorem validate_field_value_idempotent_on_clean (s r : List Char)
    (hq : quoteChar ∉ s) (hb : backslashChar ∉ s)
    (h0 : nulChar ∉ s) (hsub : subChar ∉ s)
    (hok : validate_field_value s = .ok r) :
    r = s ∧ validate_field_value r = .ok r := by
  obtain ⟨hlen, hscript, hr⟩ := validate_field_value_ok hok
  have hrs : r = s := by
    rw [hr, sanitizeFieldValue_eq_self hq hb h0 hsub]
  subst hrs
  exact ⟨rfl, hok⟩

/-- C2 amended witness: the clean value `"abc"`. -/
theorem validate_field_value_idempotent_on_clean_witness :
    "abc".toList = "abc".toList ∧
    validate_field_value "abc".toList = .ok "abc".toList :=
  validate_field_value_idempotent_on_clean "abc".toList "abc".toList
    (by decide) (by decide) (by decide) (by decide) (by decide)

/-! ## C10: sanitized values contain no NUL and no SUB -/

/-- C10: every string returned by a successful `validate_field_value`
contains no NUL and no SUB character: the two final `replace`-with-empty
steps remove them, and the quote and backslash replacements introduce
neither. -/
theorem validate_field_value_strips_controls (s r : List Char)
    (hok : validate_field_value s = .ok r) :
    nulChar ∉ r ∧ subChar ∉ r := by
  obtain ⟨-, -, hr⟩ := validate_field_value_ok hok
  subst hr
  unfold sanitizeFieldValue
  refine ⟨?_, not_mem_replaceChar_self _⟩
  exact not_mem_replaceChar (not_mem_replaceChar_self _) (by simp)

/-- C10 witness: the value `"ab"`. -/
theorem validate_field_value_strips_controls_witness :
    nulChar ∉ "ab".toList ∧ subChar ∉ "ab".toList :=
  validate_field_value_strips_controls "ab".toList "ab".toList (by decide)

/-! ## C8: validate_field_value behaviour -/

/-- C8 counterexample: an input that matches the script pattern but is
longer than 10 KiB fails with the too-long `InvalidFieldValue`, not with
`ScriptInjectionAttempt` — the length check runs first, refuting "fails
with a script classification for *every* input matching the script
pattern". -/
theorem field_value_long_script_counterexample :
    SCRIPT_INJECTION_PATTERN_isMatch
      ("<script".toList ++ List.replicate 10234 'a') = true ∧
    validate_field_value ("<script".toList ++ List.replicate 10234 'a') =
      .error (.invalidFieldValue fieldValueTooLongMsg) ∧
    ValErr.invalidFieldValue fieldValueTooLongMsg ≠
      ValErr.scriptInjectionAttempt
        ("<script".toList ++ List.replicate 10234 'a') := by
  have hmap : ("<script".toList ++ List.replicate 10234 'a').map toLowerChar =
      "<script".toList ++ List.replicate 10234 'a' := by
    rw [List.map_append, List.map_replicate]
    rw [show "<script".toList.map toLowerChar = "<script".toList by decide,
      show toLowerChar 'a' = 'a' by decide]
  have hlen : utf8Len ("<script".toList ++ List.replicate 10234 'a') = 10241 := by
    rw [utf8Len_append, utf8Len_replicate,
      show utf8Len "<script".toList = 7 by decide,
      show charUtf8Size 'a' = 1 by decide]
  have hgt : utf8Len ("<script".toList ++ List.replicate 10234 'a') >
      MAX_FIELD_VALUE_LENGTH := by
    rw [hlen]; decide
  refine ⟨?_, ?_, fun hcontra => ValErr.noConfusion hcontra⟩
  · simp only [SCRIPT_INJECTION_PATTERN_isMatch, scriptInjectionAlternatives,
      hmap, List.any_cons]
    rw [containsSeq_of_isPrefixOf
      (List.isPrefixOf_iff_prefix.mpr (List.prefix_append _ _))]
    simp only [Bool.true_or]
  · rw [validate_field_value, if_pos hgt]

/-- C8 amended: `validate_field_value` returns `"O''Brien"` for
`"O'Brien"`; it fails with `ScriptInjectionAttempt` for every input *of at
most 10 KiB* matching the script pattern (a longer matching input fails the
length check first), and fails with the too-long classification for every
input longer than 10 KiB. -/
theorem validate_field_value_spec (s t : List Char)
    (hs1 : utf8Len s ≤ MAX_FIELD_VALUE_LENGTH)
    (hs2 : SCRIPT_INJECTION_PATTERN_isMatch s = true)
    (ht : utf8Len t > MAX_FIELD_VALUE_LENGTH) :
    validate_field_value "O'Brien".toList = .ok "O''Brien".toList ∧
    validate_field_value s = .error (.scriptInjectionAttempt s) ∧
    validate_field_value t = .error (.invalidFieldValue fieldValueTooLongMsg) := by
  refine ⟨by decide, ?_, ?_⟩
  · simp [validate_field_value, hs2,
      show ¬ utf8Len s > MAX_FIELD_VALUE_LENGTH by omega]
  · simp [validate_field_value, ht]

/-- C8 amended witness: `"<script>x</script>"` and a 10241-byte value. -/
theorem validate_field_value_spec_witness :
    validate_field_value "O'Brien".toList = .ok "O''Brien".toList ∧
    validate_field_value "<script>x</script>".toList =
      .error (.scriptInjectionAttempt "<script>x</script>".toList) ∧
    validate_field_value (List.replicate 10241 'a') =
      .error (.invalidFieldValue fieldValueTooLongMsg) :=
  validate_field_value_spec "<script>x</script>".toList
    (List.replicate 10241 'a') (by decide) (by decide)
    (by rw [utf8Len_replicate]; decide)

/-! ## C6: path traversal detection -/

/-- C6 counterexample: a path containing `..` *and* a NUL byte fails with
`InvalidFilePath` — the null-byte check runs first — not with the traversal
classification the claim predicts for every string containing `..`. -/
theorem file_path_nul_counterexample :
    validate_file_path trivFS ('.' :: '.' :: [nulChar]) =
      .error (.invalidFilePath ('.' :: '.' :: [nulChar])) ∧
    ValErr.invalidFilePath ('.' :: '.' :: [nulChar]) ≠
      ValErr.pathTraversalAttempt ('.' :: '.' :: [nulChar]) := by decide

/-- C6 amended: for every *NUL-free* string containing `..` or starting
with `~`, `validate_file_path` fails with `PathTraversalAttempt`, and it
does so for every filesystem state: the check precedes any filesystem
access. -/
theorem validate_file_path_traversal_first (fs : FileSystem) (path : List Char)
    (hnul : nulChar ∉ path)
    (h : containsSeq "..".toList path = true ∨ path.head? = some '~') :
    validate_file_path fs path = .error (.pathTraversalAttempt path) := by
  have hne : path ≠ [] := by
    rintro rfl
    rcases h with h | h
    · exact absurd h (by decide)
    · exact Option.noConfusion h
  have htrav : (containsSeq "..".toList path ||
      containsSeq "~".toList path) = true := by
    rcases h with h | h
    · rw [h, Bool.true_or]
    · cases path with
      | nil => exact absurd rfl hne
      | cons c t =>
        have hc : c = '~' := by simpa using h
        subst hc
        have : containsSeq "~".toList ('~' :: t) = true := by
          simp [containsSeq, List.isPrefixOf]
        rw [this, Bool.or_true]
  rw [validate_file_path,
    if_neg (by simp [isEmpty_false_of_ne hne]),
    if_neg (by rw [contains_eq_false_of_not_mem hnul]; simp),
    if_pos htrav]

/-- C6 amended witness: the path `"../etc"` on the trivial filesystem. -/
theorem validate_file_path_traversal_first_witness :
    validate_file_path trivFS "../etc".toList =
      .error (.pathTraversalAttempt "../etc".toList) :=
  validate_file_path_traversal_first trivFS "../etc".toList
    (by decide) (Or.inl (by decide))

/-! ## C7: validate_api_url -/

/-- C7: `validate_api_url` fails with `InvalidUrl` on the empty string and
on every input that does not parse as a URL (such as `"not a url"`), fails
with `InsecureUrl` whenever the parsed scheme is not `https` (such as
`"http://x.com"`), and accepts `"https://x.com"`, returning it unchanged. -/
theorem validate_api_url_spec :
    validate_api_url [] = .error (.invalidUrl []) ∧
    validate_api_url "not a url".toList =
      .error (.invalidUrl "not a url".toList) ∧
    validate_api_url "http://x.com".toList =
      .error (.insecureUrl "http://x.com".toList) ∧
    validate_api_url "https://x.com".toList = .ok "https://x.com".toList ∧
    (∀ u : List Char, urlParse u = none →
      validate_api_url u = .error (.invalidUrl u)) ∧
    (∀ (u : List Char) (p : UrlParts), urlParse u = some p →
      p.scheme ≠ "https".toList →
      validate_api_url u = .error (.insecureUrl u)) := by
  refine ⟨by decide, by decide, by decide, by decide, ?_, ?_⟩
  · intro u hu
    by_cases hne : u.isEmpty = true
    · rw [validate_api_url, if_pos hne]
    · rw [validate_api_url, if_neg hne, hu]
  · intro u p hp hscheme
    have hne : ¬ u.isEmpty = true := by
      cases u with
      | nil => rw [show urlParse ([] : List Char) = none from rfl] at hp
               exact Option.noConfusion hp
      | cons c t => simp [List.isEmpty]
    rw [validate_api_url, if_neg hne, hp]
    dsimp only
    rw [if_pos hscheme]

/-- C7 witness: an input with no colon does not parse; an `ftp` URL is
insecure. -/
theorem validate_api_url_spec_witness :
    validate_api_url "nocolon".toList =
      .error (.invalidUrl "nocolon".toList) ∧
    validate_api_url "ftp://x.com".toList =
      .error (.insecureUrl "ftp://x.com".toList) :=
  ⟨validate_api_url_spec.2.2.2.2.1 "nocolon".toList (by decide),
   validate_api_url_spec.2.2.2.2.2 "ftp://x.com".toList
     ⟨"ftp".toList, some "x.com".toList⟩ (by decide) (by decide)⟩

/-! ## C9: validate_metadata_json -/

/-- A successful `validate_field_name` returns its input unchanged. -/
theorem validate_field_name_ok {k k2 : List Char}
    (h : validate_field_name k = .ok k2) : k2 = k := by
  unfold validate_field_name at h
  split_ifs at h
  all_goals
    first
    | exact Except.noConfusion h
    | exact (Except.ok.inj h).symm

/-- A successful `sanitizeItem` computes `sanitizedItem`. -/
theorem sanitizeItem_ok {j j2 : Json} (h : sanitizeItem j = .ok j2) :
    j2 = sanitizedItem j := by
  cases j with
  | str s =>
    simp only [sanitizeItem] at h
    cases hv : validate_field_value s with
    | error e =>
      rw [hv] at h
      exact Except.noConfusion h
    | ok r =>
      rw [hv] at h
      obtain ⟨-, -, hr⟩ := validate_field_value_ok hv
      simp only [Except.map] at h
      rw [← Except.ok.inj h, hr]
      rfl
  | null => exact (Except.ok.inj h).symm
  | bool b => exact (Except.ok.inj h).symm
  | num n => exact (Except.ok.inj h).symm
  | arr xs => exact (Except.ok.inj h).symm
  | obj m => exact (Except.ok.inj h).symm

/-- A successful `sanitizeItems` maps `sanitizedItem` over the array. -/
theorem sanitizeItems_ok : ∀ {xs ys : List Json},
    sanitizeItems xs = .ok ys → ys = xs.map sanitizedItem := by
  intro xs
  induction xs with
  | nil =>
    intro ys h
    exact (Except.ok.inj h).symm
  | cons j t ih =>
    intro ys h
    simp only [sanitizeItems] at h
    cases hj : sanitizeItem j with
    | error e =>
      rw [hj] at h
      exact Except.noConfusion h
    | ok j2 =>
      rw [hj] at h
      cases ht : sanitizeItems t with
      | error e =>
        rw [ht] at h
        exact Except.noConfusion h
      | ok t2 =>
        rw [ht] at h
        rw [← Except.ok.inj h, List.map_cons, sanitizeItem_ok hj, ih ht]

/-- A successful `validateValue` computes `sanitizedValue`. -/
theorem validateValue_ok {v v2 : Json} (h : validateValue v = .ok v2) :
    v2 = sanitizedValue v := by
  cases v with
  | str s =>
    simp only [validateValue] at h
    cases hv : validate_field_value s with
    | error e =>
      rw [hv] at h
      exact Except.noConfusion h
    | ok r =>
      rw [hv] at h
      obtain ⟨-, -, hr⟩ := validate_field_value_ok hv
      simp only [Except.map] at h
      rw [← Except.ok.inj h, hr]
      rfl
  | arr xs =>
    simp only [validateValue] at h
    cases hxs : sanitizeItems xs with
    | error e =>
      rw [hxs] at h
      exact Except.noConfusion h
    | ok ys =>
      rw [hxs] at h
      simp only [Except.map] at h
      rw [← Except.ok.inj h, sanitizeItems_ok hxs]
      rfl
  | null => exact (Except.ok.inj h).symm
  | bool b => exact (Except.ok.inj h).symm
  | num n => exact (Except.ok.inj h).symm
  | obj m => exact (Except.ok.inj h).symm

/-- A successful `validateEntries` keeps every key and maps
`sanitizedValue` over the values, in order. -/
theorem validateEntries_ok : ∀ {m : List (List Char × Json)}
    {out : List (List Char × Json)}, validateEntries m = .ok out →
    out = m.map (fun p => (p.1, sanitizedValue p.2)) := by
  intro m
  induction m with
  | nil =>
    intro out h
    exact (Except.ok.inj h).symm
  | cons p t ih =>
    intro out h
    obtain ⟨k, v⟩ := p
    simp only [validateEntries] at h
    cases hk : validate_field_name k with
    | error e =>
      rw [hk] at h
      exact Except.noConfusion h
    | ok k2 =>
      rw [hk] at h
      cases hv : validateValue v with
      | error e =>
        rw [hv] at h
        exact Except.noConfusion h
      | ok v2 =>
        rw [hv] at h
        cases ht : validateEntries t with
        | error e =>
          rw [ht] at h
          exact Except.noConfusion h
        | ok t2 =>
          rw [ht] at h
          rw [← Except.ok.inj h, List.map_cons, validate_field_name_ok hk,
            validateValue_ok hv, ih ht]

/-- C9: `validate_metadata_json` passes every non-object value through
unchanged; on an object it validates every key by `validate_field_name`
(propagating the first failure), runs every string value through
`validate_field_value` (propagating its failure, e.g. on script injection)
and, on success, returns an object with the same keys in the same order
whose string values (and the string elements of its arrays, in element
order) are sanitized and whose other values are untouched. -/
theorem validate_metadata_json_spec (j : Json) (m : List (List Char × Json))
    (out : Json) (k : List Char) (v : Json) (t : List (List Char × Json))
    (e : ValErr) (k2 s2 : List Char) (t2 : List (List Char × Json))
    (e2 : ValErr)
    (hnonobj : j.isObj = false)
    (hok : validate_metadata_json (.obj m) = .ok out)
    (hkey : validate_field_name k = .error e)
    (hkey2 : validate_field_name k2 = .ok k2)
    (hval2 : validate_field_value s2 = .error e2) :
    validate_metadata_json j = .ok j ∧
    out = .obj (m.map (fun p => (p.1, sanitizedValue p.2))) ∧
    validate_metadata_json (.obj ((k, v) :: t)) = .error e ∧
    validate_metadata_json (.obj ((k2, .str s2) :: t2)) = .error e2 := by
  refine ⟨?_, ?_, ?_, ?_⟩
  · cases j with
    | obj m2 => exact absurd hnonobj (by simp [Json.isObj])
    | null => rfl
    | bool b => rfl
    | num n => rfl
    | str s => rfl
    | arr xs => rfl
  · simp only [validate_metadata_json] at hok
    cases hm : validateEntries m with
    | error e2 =>
      rw [hm] at hok
      exact Except.noConfusion hok
    | ok l2 =>
      rw [hm] at hok
      simp only [Except.map] at hok
      rw [← Except.ok.inj hok, validateEntries_ok hm]
  · simp only [validate_metadata_json, validateEntries, hkey, Except.map]
  · simp only [validate_metadata_json, validateEntries, hkey2, validateValue,
      hval2, Except.map]

/-- C9 witness: `null` passes through; a one-entry object with a valid key
succeeds with the same shape; a leading digit key fails field-name
validation and the failure propagates; a script-matching string value
fails `validate_field_value` and that failure propagates too. -/
theorem validate_metadata_json_spec_witness :
    validate_metadata_json .null = .ok .null ∧
    Json.obj [("A".toList, Json.null)] =
      .obj ([("A".toList, Json.null)].map
        (fun p => (p.1, sanitizedValue p.2))) ∧
    validate_metadata_json (.obj (("1".toList, Json.null) :: [])) =
      .error (.invalidFieldName "1".toList) ∧
    validate_metadata_json
        (.obj (("Title".toList, .str "<script>x</script>".toList) :: [])) =
      .error (.scriptInjectionAttempt "<script>x</script>".toList) :=
  validate_metadata_json_spec .null [("A".toList, Json.null)]
    (.obj [("A".toList, Json.null)]) "1".toList Json.null []
    (.invalidFieldName "1".toList) "Title".toList
    "<script>x</script>".toList []
    (.scriptInjectionAttempt "<script>x</script>".toList)
    (by rfl) (by rfl) (by rfl) (by decide) (by decide)

/-! ## C4: splitting and rejoining a dotted address -/

theorem splitOnDotAux_ne_nil : ∀ (l acc : List Char),
    splitOnDotAux l acc ≠ []
  | [], acc => by simp [splitOnDotAux]
  | c :: t, acc => by
    rw [splitOnDotAux]
    split
    · simp
    · exact splitOnDotAux_ne_nil t (c :: acc)

theorem joinDots_cons {x : List Char} {rest : List (List Char)}
    (h : rest ≠ []) : joinDots (x :: rest) = x ++ '.' :: joinDots rest := by
  cases rest with
  | nil => exact absurd rfl h
  | cons y t => rfl

theorem joinDots_splitOnDotAux : ∀ (l acc : List Char),
    joinDots (splitOnDotAux l acc) = acc.reverse ++ l
  | [], acc => by simp [splitOnDotAux, joinDots]
  | c :: t, acc => by
    rw [splitOnDotAux]
    split
    · next hdot =>
      have hc : c = '.' := by simpa using hdot
      rw [joinDots_cons (splitOnDotAux_ne_nil t []),
        joinDots_splitOnDotAux t []]
      simp [hc]
    · next hdot =>
      rw [joinDots_splitOnDotAux t (c :: acc)]
      simp

theorem joinDots_splitOnDot (l : List Char) :
    joinDots (splitOnDot l) = l := by
  rw [splitOnDot, joinDots_splitOnDotAux]
  rfl

theorem splitOnDot_labels_no_dot : ∀ (l acc : List Char),
    (∀ c ∈ acc, c ≠ '.') →
    ∀ lab ∈ splitOnDotAux l acc, ∀ c ∈ lab, c ≠ '.'
  | [], acc => by
    intro hacc lab hlab c hc
    simp only [splitOnDotAux, List.mem_singleton] at hlab
    subst hlab
    exact hacc c (List.mem_reverse.mp hc)
  | c0 :: t, acc => by
    intro hacc lab hlab c hc
    rw [splitOnDotAux] at hlab
    split at hlab
    · rcases List.mem_cons.mp hlab with rfl | hmem
      · exact hacc c (List.mem_reverse.mp hc)
      · exact splitOnDot_labels_no_dot t [] (by simp) lab hmem c hc
    · next hdot =>
      refine splitOnDot_labels_no_dot t (c0 :: acc) ?_ lab hlab c hc
      intro d hd
      rcases List.mem_cons.mp hd with rfl | hmem
      · simpa using hdot
      · exact hacc d hmem

theorem splitOnDot_labels_chars : ∀ (l acc : List Char),
    ∀ lab ∈ splitOnDotAux l acc, ∀ c ∈ lab, c ∈ l ∨ c ∈ acc
  | [], acc => by
    intro lab hlab c hc
    simp only [splitOnDotAux, List.mem_singleton] at hlab
    subst hlab
    exact Or.inr (List.mem_reverse.mp hc)
  | c0 :: t, acc => by
    intro lab hlab c hc
    rw [splitOnDotAux] at hlab
    split at hlab
    · rcases List.mem_cons.mp hlab with rfl | hmem
      · exact Or.inr (List.mem_reverse.mp hc)
      · rcases splitOnDot_labels_chars t [] lab hmem c hc with hin | hin
        · exact Or.inl (List.mem_cons_of_mem c0 hin)
        · cases hin
    · rcases splitOnDot_labels_chars t (c0 :: acc) lab hlab c hc with hin | hin
      · exact Or.inl (List.mem_cons_of_mem c0 hin)
      · rcases List.mem_cons.mp hin with rfl | hmem
        · exact Or.inl (List.mem_cons_self _ _)
        · exact Or.inr hmem

theorem joinDots_getLast? : ∀ (xs : List (List Char)) (lab : List Char),
    xs.getLast? = some lab → lab ≠ [] →
    (joinDots xs).getLast? = lab.getLast?
  | [], lab => by intro h; exact absurd h (by simp)
  | [x], lab => by
    intro h hne
    have hx : x = lab := by simpa using h
    subst hx
    rfl
  | x :: y :: t, lab => by
    intro h hne
    rw [List.getLast?_cons_cons] at h
    have hrec := joinDots_getLast? (y :: t) lab h hne
    obtain ⟨d, hd⟩ : ∃ d, lab.getLast? = some d :=
      ⟨lab.getLast hne, List.getLast?_eq_getLast_of_ne_nil hne⟩
    have hjd : joinDots (y :: t) ≠ [] := by
      intro hnil
      rw [hnil] at hrec
      rw [hd] at hrec
      exact Option.noConfusion hrec
    rw [joinDots_cons (by simp), List.getLast?_append_of_ne_nil _ (by simp),
      show ('.' :: joinDots (y :: t)) = ['.'] ++ joinDots (y :: t) from rfl,
      List.getLast?_append_of_ne_nil _ hjd]
    exact hrec

theorem isDomainChar_lt128 {c : Char} (h : isDomainChar c = true) :
    c.toNat < 128 := by
  simp only [isDomainChar, isAlnumChar, isAsciiAlpha, isAsciiDigit,
    Bool.or_eq_true, decide_eq_true_eq, beq_iff_eq] at h
  rcases h with ((h | h) | rfl) | rfl
  · omega
  · omega
  · decide
  · decide

theorem isAlnumChar_of_domain {c : Char} (h : isDomainChar c = true)
    (hh : c ≠ '-') (hd : c ≠ '.') : isAlnumChar c = true := by
  simp only [isDomainChar, Bool.or_eq_true, beq_iff_eq] at h
  rcases h with (h | h) | h
  · exact h
  · exact absurd h hh
  · exact absurd h hd

theorem utf8Len_eq_length_of_ascii : ∀ {l : List Char},
    (∀ c ∈ l, c.toNat < 128) → utf8Len l = l.length
  | [] => by intro _; rfl
  | c :: t => by
    intro h
    have hc : charUtf8Size c = 1 := by
      rw [charUtf8Size, if_pos (h c (List.mem_cons_self c t))]
    simp only [utf8Len, List.map_cons, List.sum_cons, List.length_cons, hc]
    have := utf8Len_eq_length_of_ascii
      (fun d hd => h d (List.mem_cons_of_mem c hd))
    simp only [utf8Len] at this
    omega

/-- C4 counterexample: the one-character address `"a"` — alphanumeric, a
single 1-character label, injection-free — is *rejected* with `InvalidUrl`:
the anchored domain regex demands a first and a last character, so it never
matches a string shorter than 2 characters. -/
theorem server_address_single_char_counterexample :
    validate_server_address ['a'] = .error (.invalidUrl ['a']) := by decide

/-- C4 amended: every server address of *2* to 253 characters whose
dot-separated labels are each 1 to 63 characters and do not start or end
with `-`, which is free of injection patterns and contains only
alphanumerics, hyphens and dots, is accepted and returned unchanged;
one-character addresses are rejected by the domain regex. -/
theorem validate_server_address_accepts_valid (addr : List Char)
    (hlen2 : 2 ≤ addr.length) (hlen : addr.length ≤ 253)
    (hchars : ∀ c ∈ addr, isDomainChar c = true)
    (hsql : SQL_INJECTION_PATTERN_isMatch addr = false)
    (hlabels : ∀ lab ∈ splitOnDot addr, lab ≠ [] ∧ lab.length ≤ 63 ∧
      lab.head? ≠ some '-' ∧ lab.getLast? ≠ some '-') :
    validate_server_address addr = .ok addr := by
  have haddr_ne : addr ≠ [] := by
    intro hnil
    rw [hnil] at hlen2
    simp at hlen2
  have hascii : ∀ c ∈ addr, c.toNat < 128 :=
    fun c hc => isDomainChar_lt128 (hchars c hc)
  have hutf8 : utf8Len addr = addr.length := utf8Len_eq_length_of_ascii hascii
  have hjoin : joinDots (splitOnDot addr) = addr := joinDots_splitOnDot addr
  have hnodot : ∀ lab ∈ splitOnDot addr, ∀ c ∈ lab, c ≠ '.' :=
    splitOnDot_labels_no_dot addr [] (by simp)
  have hlabchars : ∀ lab ∈ splitOnDot addr, ∀ c ∈ lab, c ∈ addr := by
    intro lab hlab c hc
    rcases splitOnDot_labels_chars addr [] lab hlab c hc with hin | hin
    · exact hin
    · cases hin
  -- the first character of the address is the first character of the
  -- first label, which is alphanumeric
  obtain ⟨lab0, rest, hsplit⟩ : ∃ lab0 rest,
      splitOnDot addr = lab0 :: rest := by
    cases hsp : splitOnDot addr with
    | nil => exact absurd hsp (splitOnDotAux_ne_nil addr [])
    | cons x r => exact ⟨x, r, rfl⟩
  have hlab0 := hlabels lab0 (hsplit ▸ List.mem_cons_self _ _)
  obtain ⟨c0, l0, hlab0eq⟩ : ∃ c0 l0, lab0 = c0 :: l0 := by
    cases lab0 with
    | nil => exact absurd rfl hlab0.1
    | cons x r => exact ⟨x, r, rfl⟩
  obtain ⟨z, hz⟩ : ∃ z, addr = lab0 ++ z := by
    cases rest with
    | nil =>
      refine ⟨[], ?_⟩
      rw [← hjoin, hsplit]
      simp [joinDots]
    | cons y t =>
      refine ⟨'.' :: joinDots (y :: t), ?_⟩
      rw [← hjoin, hsplit, joinDots_cons (by simp)]
  have hhead : addr.head? = some c0 := by
    rw [hz, hlab0eq]
    rfl
  have hc0 : isAlnumChar c0 = true := by
    refine isAlnumChar_of_domain
      (hchars c0 (by rw [hz, hlab0eq]; exact List.mem_cons_self _ _)) ?_ ?_
    · intro hc
      exact hlab0.2.2.1 (by rw [hlab0eq, hc]; rfl)
    · exact hnodot lab0 (hsplit ▸ List.mem_cons_self _ _) c0
        (hlab0eq ▸ List.mem_cons_self _ _)
  -- the last character of the address is the last character of the last
  -- label, which is alphanumeric
  obtain ⟨labL, hlabL⟩ : ∃ labL, (splitOnDot addr).getLast? = some labL :=
    ⟨_, List.getLast?_eq_getLast_of_ne_nil (splitOnDotAux_ne_nil addr [])⟩
  have hlabLmem : labL ∈ splitOnDot addr := List.mem_of_mem_getLast? hlabL
  have hlabLne : labL ≠ [] := (hlabels labL hlabLmem).1
  obtain ⟨d, hd⟩ : ∃ d, labL.getLast? = some d :=
    ⟨_, List.getLast?_eq_getLast_of_ne_nil hlabLne⟩
  have hdmem : d ∈ labL := List.mem_of_mem_getLast? hd
  have hlast : addr.getLast? = some d := by
    rw [← hjoin, joinDots_getLast? _ _ hlabL hlabLne, hd]
  have hdal : isAlnumChar d = true := by
    refine isAlnumChar_of_domain (hchars d (hlabchars labL hlabLmem d hdmem))
      ?_ (hnodot labL hlabLmem d hdmem)
    intro hcontra
    exact (hlabels labL hlabLmem).2.2.2 (by rw [hd, hcontra])
  have hmiddle : ((addr.drop 1).dropLast.all isDomainChar) = true := by
    rw [List.all_eq_true]
    intro c hc
    exact hchars c (List.mem_of_mem_drop (List.mem_of_mem_dropLast hc))
  have hdomain : domainShape addr = true := by
    rw [domainShape, hhead, hlast]
    simp only [hc0, hdal, hmiddle, Bool.and_true, Bool.true_and,
      Bool.and_eq_true, decide_eq_true_eq]
    exact ⟨hlen2, hlen⟩
  have hlab_all : ((splitOnDot addr).all labelOk) = true := by
    rw [List.all_eq_true]
    intro lab hlab
    obtain ⟨h1, h2, h3, h4⟩ := hlabels lab hlab
    have hlabascii : ∀ c ∈ lab, c.toNat < 128 :=
      fun c hc => hascii c (hlabchars lab hlab c hc)
    simp only [labelOk, isEmpty_false_of_ne h1,
      utf8Len_eq_length_of_ascii hlabascii, Bool.not_false, Bool.true_and,
      Bool.and_eq_true, decide_eq_true_eq, Bool.not_eq_true',
      beq_eq_false_iff_ne]
    exact ⟨⟨h2, h3⟩, h4⟩
  rw [validate_server_address,
    if_neg (by simp [isEmpty_false_of_ne haddr_ne]),
    if_neg (by rw [hutf8]; omega),
    if_neg (by simp [hsql]),
    if_neg (by simp [hdomain]),
    if_neg (by simp [hlab_all])]

/-- C4 amended witness: the address `"a.b"`. -/
theorem validate_server_address_accepts_valid_witness :
    validate_server_address "a.b".toList = .ok "a.b".toList :=
  validate_server_address_accepts_valid "a.b".toList
    (by decide) (by decide) (by decide) (by decide) (by decide)

end Validation
